import Mathlib

/-!
Verification of the log-parsing and aggregation layer of `sex_stats.py`.

The Python source parses free-text activity-log lines with two timestamp
regexes, a repeat/category suffix regex, reads a semicolon CSV export, and
groups records for charting.  Below, each regex is embedded as an executable
character-level matcher that reproduces the backtracking behaviour of the
Python patterns on their (finite-alternative) structure, and each function of
the source is embedded as a Lean definition over those matchers.
-/

/-- Python exception kinds that the embedded functions can raise. -/
inductive PyErr where
  | typeError
  | valueError
deriving DecidableEq

/-- Numeric code point of a character (ASCII for all inputs of interest). -/
def cv (c : Char) : Nat := c.toNat

/-- Character class `\d` of the source regexes (ASCII digits `0`-`9`). -/
def isDig (c : Char) : Prop := 48 ≤ cv c ∧ cv c ≤ 57

instance (c : Char) : Decidable (isDig c) := by
  unfold isDig; infer_instance

/-- Character class `\w` of the source regexes (ASCII letters, digits, `_`). -/
def isWord (c : Char) : Prop :=
  (65 ≤ cv c ∧ cv c ≤ 90) ∨ (97 ≤ cv c ∧ cv c ≤ 122) ∨ isDig c ∨ cv c = 95

instance (c : Char) : Decidable (isWord c) := by
  unfold isWord; infer_instance

/-- Numeric value of a digit character. -/
def digitVal (c : Char) : Nat := cv c - 48

/-- Value of a string of digit characters, as Python `int` computes it. -/
def digitsVal (cs : List Char) : Nat := cs.foldl (fun a c => 10 * a + digitVal c) 0

/-- Python `int(s)` restricted to the digit strings produced by the matchers;
`pyVal ""` is never reached (the source guards falsy values separately). -/
def pyVal (s : String) : Nat := digitsVal s.data

/-- Python `int(_) if _ else 0` applied to an optional capture string. -/
def pyOptVal (x : Option String) : Nat :=
  match x with
  | none => 0
  | some s => if s = "" then 0 else pyVal s

/-- Result of Python `datetime(...)`: a validated calendar instant. -/
structure DateTime where
  year : Nat
  month : Nat
  day : Nat
  hour : Nat
  minute : Nat
  second : Nat
deriving DecidableEq

/-- Day count of a month, with leap years, as `datetime` validates it. -/
def daysInMonth (y m : Nat) : Nat :=
  if m = 2 then
    if y % 4 = 0 ∧ (y % 100 ≠ 0 ∨ y % 400 = 0) then 29 else 28
  else if m = 4 ∨ m = 6 ∨ m = 9 ∨ m = 11 then 30
  else 31

/-- Python `datetime(y, mo, d, h, mi, s)`: validates ranges, raising
`ValueError` outside them (`MINYEAR = 1`, `MAXYEAR = 9999`). -/
def datetimeMk (y mo d h mi s : Nat) : Except PyErr DateTime :=
  if 1 ≤ y ∧ y ≤ 9999 ∧ 1 ≤ mo ∧ mo ≤ 12 ∧ 1 ≤ d ∧ d ≤ daysInMonth y mo
      ∧ h ≤ 23 ∧ mi ≤ 59 ∧ s ≤ 59 then
    .ok ⟨y, mo, d, h, mi, s⟩
  else
    .error .valueError

/-- The `TimeStamp` NamedTuple as `parse_time_str` builds it: the named
captures of the regexes are passed through verbatim, so the fields hold the
matched substrings, and `Second` is `None` when the optional group is absent. -/
structure TimeStamp where
  Year : String
  Month : String
  Day : String
  Hour : String
  Minute : String
  Second : Option String
deriving DecidableEq

/-- The `_datetime` property: `datetime(*(int(_) if _ else 0 for _ in self))`. -/
def TimeStamp.dt (ts : TimeStamp) : Except PyErr DateTime :=
  datetimeMk (pyOptVal (some ts.Year)) (pyOptVal (some ts.Month))
    (pyOptVal (some ts.Day)) (pyOptVal (some ts.Hour))
    (pyOptVal (some ts.Minute)) (pyOptVal ts.Second)

/-- The `LogLine` NamedTuple as `parse_log_line` builds it: the first field
receives `timestamp._datetime`, a `datetime` instant. -/
structure LogLine where
  TimeStamp : DateTime
  Repeat : Nat
  Kind : Option String
deriving DecidableEq

/-- Literal-character step of a regex: consume `c` or fail. -/
def litM (c : Char) (cs : List Char) : Option (List Char) :=
  match cs with
  | d :: rest => if d = c then some rest else none
  | [] => none

/-- The `Year` pattern `(19|2\d)?\d{2}`.  The two-digit reading requires the
character after it to be a separator (`-` or space), never a digit, while the
four-digit reading requires four leading digits, so the regex alternatives are
mutually exclusive in both grammars and the matcher can commit greedily. -/
def yearM (cs : List Char) : Option (List Char × List Char) :=
  match cs with
  | c0 :: c1 :: c2 :: c3 :: rest =>
    if ((cv c0 = 49 ∧ cv c1 = 57) ∨ (cv c0 = 50 ∧ isDig c1)) ∧ isDig c2 ∧ isDig c3 then
      some ([c0, c1, c2, c3], rest)
    else if isDig c0 ∧ isDig c1 then
      some ([c0, c1], c2 :: c3 :: rest)
    else none
  | c0 :: c1 :: rest =>
    if isDig c0 ∧ isDig c1 then some ([c0, c1], rest) else none
  | _ => none

/-- The `Month` pattern `1[0-2]|0\d` (first alternative tried first; the two
alternatives are disjoint on their first character). -/
def monthM (cs : List Char) : Option (List Char × List Char) :=
  match cs with
  | c0 :: c1 :: rest =>
    if (cv c0 = 49 ∧ 48 ≤ cv c1 ∧ cv c1 ≤ 50) ∨ (cv c0 = 48 ∧ isDig c1) then
      some ([c0, c1], rest)
    else none
  | _ => none

/-- The `Day` pattern `[123]\d|0\d` (alternatives disjoint on first char). -/
def dayM (cs : List Char) : Option (List Char × List Char) :=
  match cs with
  | c0 :: c1 :: rest =>
    if (49 ≤ cv c0 ∧ cv c0 ≤ 51 ∧ isDig c1) ∨ (cv c0 = 48 ∧ isDig c1) then
      some ([c0, c1], rest)
    else none
  | _ => none

/-- The `Hour` pattern `[01]?\d|2[0-3]`.  Regex preference order: two-digit
`[01]\d`, one-digit `\d`, then `2[0-3]`; a one-digit hour is only viable when
followed by `:`, which makes the committed decision below equivalent to the
backtracking search of the Python engine. -/
def hourM (cs : List Char) : Option (List Char × List Char) :=
  match cs with
  | c0 :: c1 :: rest =>
    if cv c0 = 48 ∨ cv c0 = 49 then
      if isDig c1 then some ([c0, c1], rest) else some ([c0], c1 :: rest)
    else if cv c0 = 50 then
      if 48 ≤ cv c1 ∧ cv c1 ≤ 51 then some ([c0, c1], rest)
      else some ([c0], c1 :: rest)
    else if isDig c0 then some ([c0], c1 :: rest)
    else none
  | [c0] => if isDig c0 then some ([c0], []) else none
  | [] => none

/-- The `Minute` (and `Second`) pattern `[0-5]\d`. -/
def minuteM (cs : List Char) : Option (List Char × List Char) :=
  match cs with
  | c0 :: c1 :: rest =>
    if 48 ≤ cv c0 ∧ cv c0 ≤ 53 ∧ isDig c1 then some ([c0, c1], rest) else none
  | _ => none

/-- The optional trailing `(:{Second})?` group: the greedy present branch is
tried first, and on failure nothing is consumed. -/
def secOptM (cs : List Char) : Option (List Char) × List Char :=
  match cs with
  | c0 :: c1 :: c2 :: rest =>
    if c0 = ':' ∧ 48 ≤ cv c1 ∧ cv c1 ≤ 53 ∧ isDig c2 then (some [c1, c2], rest)
    else (none, cs)
  | _ => (none, cs)

/-- Grammar A of `parse_time_str`:
`^{Year}-{Month}-{Day}\*{Hour}:{Minute}(:{Second})?`, anchored at the start,
returning the `TimeStamp` of captures and the unconsumed suffix. -/
def matchA (cs : List Char) : Option (TimeStamp × List Char) :=
  match yearM cs with
  | none => none
  | some (y, r1) =>
  match litM '-' r1 with
  | none => none
  | some r2 =>
  match monthM r2 with
  | none => none
  | some (mo, r3) =>
  match litM '-' r3 with
  | none => none
  | some r4 =>
  match dayM r4 with
  | none => none
  | some (d, r5) =>
  match litM '*' r5 with
  | none => none
  | some r6 =>
  match hourM r6 with
  | none => none
  | some (h, r7) =>
  match litM ':' r7 with
  | none => none
  | some r8 =>
  match minuteM r8 with
  | none => none
  | some (mi, r9) =>
  match secOptM r9 with
  | (sec, r10) =>
    some (⟨⟨y⟩, ⟨mo⟩, ⟨d⟩, ⟨h⟩, ⟨mi⟩, sec.map (fun l => (⟨l⟩ : String))⟩, r10)

/-- Grammar B of `parse_time_str`:
`^{Day}/{Month}/{Year} {Hour}:{Minute}(:{Second})?`. -/
def matchB (cs : List Char) : Option (TimeStamp × List Char) :=
  match dayM cs with
  | none => none
  | some (d, r1) =>
  match litM '/' r1 with
  | none => none
  | some r2 =>
  match monthM r2 with
  | none => none
  | some (mo, r3) =>
  match litM '/' r3 with
  | none => none
  | some r4 =>
  match yearM r4 with
  | none => none
  | some (y, r5) =>
  match litM ' ' r5 with
  | none => none
  | some r6 =>
  match hourM r6 with
  | none => none
  | some (h, r7) =>
  match litM ':' r7 with
  | none => none
  | some r8 =>
  match minuteM r8 with
  | none => none
  | some (mi, r9) =>
  match secOptM r9 with
  | (sec, r10) =>
    some (⟨⟨y⟩, ⟨mo⟩, ⟨d⟩, ⟨h⟩, ⟨mi⟩, sec.map (fun l => (⟨l⟩ : String))⟩, r10)

/-- The source tries its two regexes in the iteration order of a Python set,
which is unspecified; the grammars are disjoint (character 2 of any match is
`-` or a digit under grammar A but `/` under grammar B), so trying A first is
faithful regardless of that order. -/
def parse_time_str (s : String) : Option TimeStamp :=
  match matchA s.data with
  | some (ts, _) => some ts
  | none =>
    match matchB s.data with
    | some (ts, _) => some ts
    | none => none

/-- Maximal run of `\w` characters (the greedy `\w+` / `\w*` step). -/
def wordRun (cs : List Char) : List Char × List Char :=
  match cs with
  | [] => ([], [])
  | c :: rest =>
    if isWord c then
      match wordRun rest with
      | (w, r) => (c :: w, r)
    else ([], c :: rest)

/-- The `Kind` pattern `\w+( \(\w+\))?`: a greedy word run, optionally
followed by a single parenthesised word-run qualifier, captured verbatim.
The greedy run plus the always-available absent branch of the optional group
make the committed decision equivalent to the regex backtracking search. -/
def kindM (cs : List Char) : Option (String × List Char) :=
  match wordRun cs with
  | (w, rest) =>
    if w = [] then none
    else
      match rest with
      | ' ' :: '(' :: r2 =>
        (match wordRun r2 with
         | (q, r3) =>
           match r3 with
           | ')' :: r4 =>
             if q = [] then some (⟨w⟩, rest)
             else some (⟨w ++ [' ', '('] ++ q ++ [')']⟩, r4)
           | _ => some (⟨w⟩, rest))
      | _ => some (⟨w⟩, rest)

/-- The tail `times? ` of the repeat pattern followed by the kind capture:
after the literal `time`, the greedy optional `s` is taken when a space
follows it, else the pattern requires a space immediately. -/
def afterTime (cs : List Char) : Option (Nat × String) → Option (Nat × String) := fun rep =>
  match rep with
  | none => none
  | some (n, _) =>
    match cs with
    | 's' :: ' ' :: r =>
      match kindM r with
      | some (k, _) => some (n, k)
      | none => none
    | ' ' :: r =>
      match kindM r with
      | some (k, _) => some (n, k)
      | none => none
    | _ => none

/-- Attempt of the suffix ` {Repeat} times? {Kind}` at one split point of the
greedy `.+`: a space, one digit, a space, `time`, optional `s`, a space, kind. -/
def tailMatch (cs : List Char) : Option (Nat × String) :=
  match cs with
  | ' ' :: d :: ' ' :: 't' :: 'i' :: 'm' :: 'e' :: rest =>
    if isDig d then afterTime rest (some (digitVal d, "")) else none
  | _ => none

/-- Split points of the greedy `.+` in `^.+ {Repeat} times? {Kind}`: the
remainders after consuming `k` characters, longest consumption first, as the
backtracking engine explores them.  (`.` excludes newlines; the lines fed to
the parser carry no interior newline.) -/
def dotSplits (cs : List Char) : List (List Char) :=
  (List.range cs.length).map (fun i => cs.drop (cs.length - i))

/-- Match of the whole repeat/kind pattern `^.+ {Repeat} times? {Kind}`
against a line, returning the `Repeat` and `Kind` captures. -/
def repeatKindMatch (cs : List Char) : Option (Nat × String) :=
  (dotSplits cs).findSome? tailMatch

/-- The `parse_log_line` function.  Python evaluates
`LogLine(timestamp._datetime, int(matched['Repeat']), matched['Kind'])`
left to right: `_datetime` may raise `ValueError`; when the suffix regex did
not match, subscripting `None` raises `TypeError`.  A missing timestamp makes
the guard falsy and the function returns `None` (modelled `Except.ok none`). -/
def parse_log_line (line : String) : Except PyErr (Option LogLine) :=
  match parse_time_str line with
  | none => .ok none
  | some ts =>
    match ts.dt with
    | .error e => .error e
    | .ok dt =>
      match repeatKindMatch line.data with
      | none => .error .typeError
      | some (n, k) => .ok (some ⟨dt, n, some k⟩)

/-- Round to nearest integer, ties to the even one: both the tie rule of
Python `round` and the IEEE-754 round-to-nearest-even used below to model the
binary64 division of the source. -/
def pyRound (q : ℚ) : ℤ :=
  if q - ⌊q⌋ < 1 / 2 then ⌊q⌋
  else if 1 / 2 < q - ⌊q⌋ then ⌊q⌋ + 1
  else if ⌊q⌋ % 2 = 0 then ⌊q⌋ else ⌊q⌋ + 1

/-- Python `round(q, 1)` on the exact value `q` of its float argument:
CPython rounds the double's exact decimal expansion to one fractional digit
with ties to even, so the chosen decimal is `pyRound (q * 10) / 10`; the
model represents that decimal exactly (the program stores the nearest double
to it, an order-preserving and injective representation of the same bucket). -/
def pyRound1 (q : ℚ) : ℚ := (pyRound (q * 10) : ℚ) / 10

/-- The IEEE-754 binary64 value of the Python expression `x.minute/60` for a
minute value `m ≤ 59`: `m/60` lies in `[1/64, 1)`, its exponent interval
`[2 ^ (-k), 2 ^ (1 - k))` gives an ulp of `2 ^ (-(52 + k))`, and the double is
the round-to-nearest-even of `m/60` on that grid.  Checked against CPython:
`fl60 m` equals `Fraction(m/60)` for every `m < 60`. -/
def fl60 (m : Nat) : ℚ :=
  if m = 0 then 0
  else
    let q : ℚ := (m : ℚ) / 60
    let n : Nat :=
      if q < 1/32 then 58 else if q < 1/16 then 57 else if q < 1/8 then 56
      else if q < 1/4 then 55 else if q < 1/2 then 54 else 53
    (pyRound (q * 2 ^ n) : ℚ) / 2 ^ n

/-- The `time_function` closure: captures `data_size = df.shape[0]` and maps a
timestamp to `x.hour` plus a fraction of the hour whose precision depends only
on the dataset size.  The source computes on the double `fl60 x.minute`; in
the three integer-rounding branches the exact rational `x.minute/60` gives the
same result for every minute 0–59 (the only ties, at minutes 30 and 15/45, are
the binary-exact doubles 0.5, 0.25 and 0.75, and elsewhere the float error is
far below the `1/60` distance to a rounding boundary), so those branches use
the rational directly; the tenth-of-an-hour branch rounds at decimal ties that
are not binary-exact, so there the double is modelled explicitly. -/
def time_function {α : Type} (df : List α) : DateTime → ℚ :=
  fun x =>
    let data_size := df.length
    let step : ℚ :=
      if data_size ≤ 50 then (pyRound ((x.minute : ℚ) / 60) : ℚ)
      else if data_size ≤ 100 then (pyRound ((x.minute : ℚ) / 60 * 2) : ℚ) / 2
      else if data_size ≤ 200 then (pyRound ((x.minute : ℚ) / 60 * 4) : ℚ) / 4
      else pyRound1 (fl60 x.minute)
    (x.hour : ℚ) + step

/-- Modelled from the spec's table for the time-of-day grouping: the step the
claim asserts, `round(m/60)` up to 50 records, `round(m/60*2)/2` up to 100,
`round(m/60*4)/4` up to 200, `round(m/60, 1)` beyond — the quoted expressions
computed as the program computes them, on the double `m/60` where the decimal
rounding is float-sensitive. -/
def stepClaim (n m : Nat) : ℚ :=
  if n ≤ 50 then (pyRound ((m : ℚ) / 60) : ℚ)
  else if n ≤ 100 then (pyRound ((m : ℚ) / 60 * 2) : ℚ) / 2
  else if n ≤ 200 then (pyRound ((m : ℚ) / 60 * 4) : ℚ) / 4
  else pyRound1 (fl60 m)

/-- The tuple `available_offset = ('W', 'SM', 'M', 'Q', 'A', 'H')` of
`group_data`: pandas aliases for week, semi-month, month, quarter, year
and hour periods. -/
def available_offset : List String := ["W", "SM", "M", "Q", "A", "H"]

/-- A pandas `Resampler` as `df.resample(offset_alias, on='TimeStamp')`
returns it: the lazy grouping handle holding the rule, the grouping column
and the frame. -/
structure Resampler (α : Type) where
  rule : String
  onColumn : String
  frame : List α
deriving DecidableEq

/-- The `group_data` function: returns the resampler when the alias is one of
the six period tokens, and `None` (modelled `none`) otherwise. -/
def group_data {α : Type} (df : List α) (offset_alias : String) :
    Option (Resampler α) :=
  if offset_alias ∈ available_offset then some ⟨offset_alias, "TimeStamp", df⟩
  else none

/-- A row of the wHealth export CSV, under its header
`startdate;value;unit;name;source`, as `read_csv` tabulates it. -/
structure WhealthRow where
  startdate : String
  value : String
  unit : String
  name : String
  source : String
deriving DecidableEq

/-- A normalised record of the health-export reader after the column drop,
the renames and the `Kind` assignment. -/
structure WRec where
  TimeStamp : DateTime
  Repeat : Nat
  Kind : String
deriving DecidableEq

/-- Split of a character list at every `;`, as `read_csv` tokenises a line. -/
def splitSemi (cs : List Char) : List (List Char) :=
  match cs with
  | [] => [[]]
  | c :: rest =>
    if c = ';' then [] :: splitSemi rest
    else
      match splitSemi rest with
      | h :: t => (c :: h) :: t
      | [] => [[c]]

/-- Splitting one CSV line on `;` into the five columns of the export. -/
def whealthRowOfLine (s : String) : Option WhealthRow :=
  match splitSemi s.data with
  | [a, b, c, d, e] => some ⟨⟨a⟩, ⟨b⟩, ⟨c⟩, ⟨d⟩, ⟨e⟩⟩
  | _ => none

/-- Pandas `to_datetime` on the export's `startdate` strings, which carry the
ISO form `YYYY-MM-DDTHH:MM:SS`; unparseable or invalid dates raise, collapsing
the whole read (the tabular path has no line-level fallback). -/
def parseISO (s : String) : Option DateTime :=
  match s.data with
  | [y1, y2, y3, y4, '-', m1, m2, '-', d1, d2, 'T', h1, h2, ':', n1, n2, ':', s1, s2] =>
    if isDig y1 ∧ isDig y2 ∧ isDig y3 ∧ isDig y4 ∧ isDig m1 ∧ isDig m2
        ∧ isDig d1 ∧ isDig d2 ∧ isDig h1 ∧ isDig h2 ∧ isDig n1 ∧ isDig n2
        ∧ isDig s1 ∧ isDig s2 then
      (datetimeMk (digitsVal [y1, y2, y3, y4]) (digitsVal [m1, m2])
        (digitsVal [d1, d2]) (digitsVal [h1, h2]) (digitsVal [n1, n2])
        (digitsVal [s1, s2])).toOption
    else none
  | _ => none

/-- A numeric `value` cell as `read_csv` types it. -/
def parseNatCell (s : String) : Option Nat :=
  if s ≠ "" ∧ (∀ c ∈ s.data, isDig c) then some (digitsVal s.data) else none

/-- The `read_activity_whealth` transformation on the tabulated rows: drop
`unit`, `name`, `source`; rename `startdate` to `TimeStamp` (converted by
`to_datetime`) and `value` to `Repeat`; assign the constant `Kind`
`"Unknown"`; keep every row in order. -/
def read_activity_whealth (rows : List WhealthRow) : Option (List WRec) :=
  match rows with
  | [] => some []
  | r :: rs =>
    match parseISO r.startdate, parseNatCell r.value, read_activity_whealth rs with
    | some dt, some v, some tail => some (⟨dt, v, "Unknown"⟩ :: tail)
    | _, _, _ => none

/-- The thirteen month strings the `Month` pattern `1[0-2]|0\d` accepts. -/
def monthStrs : List String :=
  ["00", "01", "02", "03", "04", "05", "06", "07", "08", "09", "10", "11", "12"]

/-- The digit character of a digit value. -/
def digitCharF (d : Fin 10) : Char := Char.ofNat (48 + d.val)

/-- A grammar-A raw string with a two-digit year built from two digits. -/
def strA2 (d1 d2 : Fin 10) : String :=
  ⟨[digitCharF d1, digitCharF d2, '-', '0', '5', '-', '0', '1', '*', '1', '4', ':', '3', '0']⟩

/-- A grammar-B raw string with the same nominal date and two-digit year. -/
def strB2 (d1 d2 : Fin 10) : String :=
  ⟨['0', '1', '/', '0', '5', '/', digitCharF d1, digitCharF d2, ' ', '1', '4', ':', '3', '0']⟩

/-- C1.  A line with no recognizable timestamp makes `parse_log_line` return
`None` (a soft failure), but a line whose timestamp parses while the
`<repeat> time(s) <category>` suffix does not match makes the source subscript
a `None` match object, raising `TypeError` — contradicting the spec's (and the
surrounding code's) skip-line intent. -/
theorem c1_suffixless_line_raises :
    parse_log_line "not a log entry" = Except.ok none ∧
    (parse_time_str "2021-05-01*14:30 picnic").isSome = true ∧
    parse_log_line "2021-05-01*14:30 picnic" = Except.error PyErr.typeError :=
  ⟨rfl, rfl, rfl⟩

/-- C2.  Parsing `"2021-05-01*14:30 3 times oral (partner)"` yields exactly one
record with instant 2021-05-01 14:30:00, repeat count 3, and the verbatim
category `"oral (partner)"` including the parenthesised qualifier. -/
theorem c2_concrete_line :
    parse_log_line "2021-05-01*14:30 3 times oral (partner)" =
      Except.ok (some ⟨⟨2021, 5, 1, 14, 30, 0⟩, 3, some "oral (partner)"⟩) :=
  rfl

/-- C3 counterexample.  On a raw string matching grammar A with the seconds
omitted, `parse_time_str` returns a `TimeStamp` whose `Second` field is `None`
(the regex group dict overrides the NamedTuple default), not a populated 0. -/
theorem c3_counterexample_second_is_none :
    parse_time_str "2021-05-01*14:30" = some ⟨"2021", "05", "01", "14", "30", none⟩ ∧
    ∀ ts, parse_time_str "2021-05-01*14:30" = some ts → ts.Second = none :=
  ⟨rfl, fun ts h => by
    have h' : some (⟨"2021", "05", "01", "14", "30", none⟩ : TimeStamp) = some ts := h
    injection h' with h''
    rw [← h'']⟩

/-- C4 counterexample.  The two-digit year `"21"` is not normalized into the
1900s or 2000s: the parsing layer yields the literal calendar year 21. -/
theorem c4_counterexample_no_pivot :
    ((parse_time_str "21-05-01*14:30").map (fun ts => pyVal ts.Year)) = some 21 ∧
    ¬ (1900 ≤ 21) :=
  ⟨rfl, by decide⟩

/-- C5 counterexample.  The repeat pattern `(?P<Repeat>\d)` matches the single
digit `0`, so `parse_log_line` produces a record whose `Repeat` is 0 — not a
positive integer. -/
theorem c5_counterexample_zero_repeat :
    parse_log_line "2021-05-01*14:30 0 times oral" =
      Except.ok (some ⟨⟨2021, 5, 1, 14, 30, 0⟩, 0, some "oral"⟩) ∧
    ¬ (1 ≤ (0 : Nat)) :=
  ⟨rfl, by decide⟩

/-- C6 counterexample.  The month pattern `1[0-2]|0\d` also matches `"00"`,
whose value 0 lies outside 01–12, yet `parse_time_str` returns a `TimeStamp`
built from that match. -/
theorem c6_counterexample_month_00 :
    parse_time_str "2021-00-01*14:30" = some ⟨"2021", "00", "01", "14", "30", none⟩ ∧
    ¬ (1 ≤ pyVal "00") :=
  ⟨rfl, by decide⟩

/-- C7.  `time_function` maps a timestamp to its hour plus a fractional step
that depends only on the record count `n`: `round(m/60)` for `n ≤ 50`,
`round(m/60*2)/2` for `n ≤ 100`, `round(m/60*4)/4` for `n ≤ 200`, and
`round(m/60, 1)` beyond; at exactly 50 records the step is a whole hour
(0 or 1). -/
theorem c7_time_function_precision :
    ∀ (α : Type) (df : List α) (x : DateTime),
      time_function df x = (x.hour : ℚ) + stepClaim df.length x.minute ∧
      (df.length = 50 → x.minute ≤ 59 →
        ∃ k : ℕ, k ≤ 1 ∧ time_function df x = (x.hour : ℚ) + (k : ℚ)) := by
  intro α df x
  constructor
  · rfl
  · intro h50 hm
    have hstep : stepClaim df.length x.minute = (pyRound ((x.minute : ℚ) / 60) : ℚ) := by
      rw [h50]
      simp [stepClaim]
    have hfl : ⌊(x.minute : ℚ) / 60⌋ = 0 := by
      rw [Int.floor_eq_zero_iff, Set.mem_Ico]
      constructor
      · positivity
      · rw [div_lt_one (by norm_num)]
        have hx : (x.minute : ℚ) ≤ 59 := by exact_mod_cast hm
        linarith
    have h01 : pyRound ((x.minute : ℚ) / 60) = 0 ∨ pyRound ((x.minute : ℚ) / 60) = 1 := by
      unfold pyRound
      rw [hfl]
      split
      · exact Or.inl rfl
      · split
        · norm_num
        · split
          · exact Or.inl rfl
          · norm_num
    have heq : time_function df x = (x.hour : ℚ) + stepClaim df.length x.minute := rfl
    rcases h01 with h | h
    · exact ⟨0, by norm_num, by rw [heq, hstep, h]; norm_num⟩
    · exact ⟨1, by norm_num, by rw [heq, hstep, h]; norm_num⟩

/-- Witness for C7: over exactly 50 records, minute 40 gives a whole-hour
value (here 15 = 14 + 1). -/
theorem c7_witness :
    ∃ k : ℕ, k ≤ 1 ∧
      time_function (List.replicate 50 (0 : Nat)) ⟨2021, 5, 1, 14, 40, 0⟩ =
        ((14 : ℚ) + (k : ℚ)) := by
  have h := (c7_time_function_precision Nat (List.replicate 50 0) ⟨2021, 5, 1, 14, 40, 0⟩).2
    (by simp) (by norm_num)
  simpa using h

/-- C8.  `group_data` recognises exactly the six period aliases
`W` (week), `SM` (semi-month), `M` (month), `Q` (quarter), `A` (year),
`H` (hour): inside the set it returns the frame resampled on `TimeStamp` by
that alias, outside it returns `None`. -/
theorem c8_group_data_tokens :
    ∀ (df : List WRec) (tok : String),
      (tok ∈ available_offset → group_data df tok = some ⟨tok, "TimeStamp", df⟩) ∧
      (tok ∉ available_offset → group_data df tok = none) := by
  intro df tok
  constructor <;> intro h <;> simp [group_data, h]

/-- Witness for C8: the month alias is accepted, a non-alias token is not. -/
theorem c8_witness :
    group_data ([] : List WRec) "M" = some ⟨"M", "TimeStamp", []⟩ ∧
    group_data ([] : List WRec) "monthly" = none :=
  ⟨(c8_group_data_tokens [] "M").1 (by decide),
   (c8_group_data_tokens [] "monthly").2 (by decide)⟩

/-- C9.  On a well-formed export (every row's `startdate` and `value` decode),
the health-export reader keeps every row in order, renames `startdate` to the
timestamp and `value` to the repeat count, and sets `Kind` to the sentinel
`"Unknown"` on every row. -/
theorem c9_read_whealth :
    ∀ (rows : List WhealthRow) (out : List WRec),
      read_activity_whealth rows = some out →
      out.length = rows.length ∧
      ∀ i (hi : i < rows.length) (ho : i < out.length),
        ∃ dt v, parseISO (rows.get ⟨i, hi⟩).startdate = some dt ∧
          parseNatCell (rows.get ⟨i, hi⟩).value = some v ∧
          out.get ⟨i, ho⟩ = ⟨dt, v, "Unknown"⟩ := by
  intro rows
  induction rows with
  | nil =>
    intro out h
    simp only [read_activity_whealth] at h
    injection h with h'
    subst h'
    exact ⟨rfl, fun i hi => absurd hi (Nat.not_lt_zero i)⟩
  | cons r rs ih =>
    intro out h
    simp only [read_activity_whealth] at h
    split at h
    · rename_i dt v tail hdt hv htail
      injection h with h'
      subst h'
      obtain ⟨hlen, hidx⟩ := ih tail htail
      refine ⟨by simp [hlen], ?_⟩
      intro i hi ho
      cases i with
      | zero => exact ⟨dt, v, hdt, hv, rfl⟩
      | succ j =>
        have hj : j < rs.length := Nat.lt_of_succ_lt_succ hi
        have hj' : j < tail.length := Nat.lt_of_succ_lt_succ ho
        exact hidx j hj hj'
    · exact absurd h (by simp)

/-- Witness for C9: the row `2021-05-01T14:30:00;3;count;Sex;Manual Entry`
yields one record — timestamp 2021-05-01 14:30:00, repeat 3, kind
`"Unknown"` — and no row is skipped. -/
theorem c9_witness :
    whealthRowOfLine "2021-05-01T14:30:00;3;count;Sex;Manual Entry" =
      some ⟨"2021-05-01T14:30:00", "3", "count", "Sex", "Manual Entry"⟩ ∧
    read_activity_whealth [⟨"2021-05-01T14:30:00", "3", "count", "Sex", "Manual Entry"⟩] =
      some [⟨⟨2021, 5, 1, 14, 30, 0⟩, 3, "Unknown"⟩] ∧
    ([⟨⟨2021, 5, 1, 14, 30, 0⟩, 3, "Unknown"⟩] : List WRec).length =
      [(⟨"2021-05-01T14:30:00", "3", "count", "Sex", "Manual Entry"⟩ : WhealthRow)].length :=
  ⟨rfl, rfl,
    (c9_read_whealth [⟨"2021-05-01T14:30:00", "3", "count", "Sex", "Manual Entry"⟩]
      [⟨⟨2021, 5, 1, 14, 30, 0⟩, 3, "Unknown"⟩] rfl).1⟩

/-- Inversion of a literal step: the consumed character is the literal. -/
theorem litM_inv {c : Char} {cs r : List Char} (h : litM c cs = some r) : cs = c :: r := by
  cases cs with
  | nil => exact Option.noConfusion h
  | cons d rest =>
    simp only [litM] at h
    split at h
    · rename_i hd
      injection h with h'
      rw [hd, h']
    · exact Option.noConfusion h

/-- Inversion of the month step: two characters satisfying `1[0-2]|0\d`. -/
theorem monthM_inv {cs m r : List Char} (h : monthM cs = some (m, r)) :
    ∃ c0 c1, cs = c0 :: c1 :: r ∧ m = [c0, c1] ∧
      ((cv c0 = 49 ∧ 48 ≤ cv c1 ∧ cv c1 ≤ 50) ∨ (cv c0 = 48 ∧ isDig c1)) := by
  cases cs with
  | nil => exact Option.noConfusion h
  | cons c0 tl =>
    cases tl with
    | nil => exact Option.noConfusion h
    | cons c1 rest =>
      simp only [monthM] at h
      split at h
      · rename_i hc
        injection h with h'
        injection h' with hm hr
        exact ⟨c0, c1, by rw [hr], hm.symm, hc⟩
      · exact Option.noConfusion h

/-- Inversion of the day step: two characters satisfying `[123]\d|0\d`. -/
theorem dayM_inv {cs m r : List Char} (h : dayM cs = some (m, r)) :
    ∃ c0 c1, cs = c0 :: c1 :: r ∧ m = [c0, c1] ∧
      ((49 ≤ cv c0 ∧ cv c0 ≤ 51 ∧ isDig c1) ∨ (cv c0 = 48 ∧ isDig c1)) := by
  cases cs with
  | nil => exact Option.noConfusion h
  | cons c0 tl =>
    cases tl with
    | nil => exact Option.noConfusion h
    | cons c1 rest =>
      simp only [dayM] at h
      split at h
      · rename_i hc
        injection h with h'
        injection h' with hm hr
        exact ⟨c0, c1, by rw [hr], hm.symm, hc⟩
      · exact Option.noConfusion h

/-- Inversion of the minute/second step: two characters matching `[0-5]\d`. -/
theorem minuteM_inv {cs m r : List Char} (h : minuteM cs = some (m, r)) :
    ∃ c0 c1, cs = c0 :: c1 :: r ∧ m = [c0, c1] ∧
      (48 ≤ cv c0 ∧ cv c0 ≤ 53 ∧ isDig c1) := by
  cases cs with
  | nil => exact Option.noConfusion h
  | cons c0 tl =>
    cases tl with
    | nil => exact Option.noConfusion h
    | cons c1 rest =>
      simp only [minuteM] at h
      split at h
      · rename_i hc
        injection h with h'
        injection h' with hm hr
        exact ⟨c0, c1, by rw [hr], hm.symm, hc⟩
      · exact Option.noConfusion h

/-- Inversion of the year step: either a four-digit or a two-digit capture. -/
theorem yearM_inv {cs y r : List Char} (h : yearM cs = some (y, r)) :
    (∃ c0 c1 c2 c3, cs = c0 :: c1 :: c2 :: c3 :: r ∧ y = [c0, c1, c2, c3] ∧
      ((cv c0 = 49 ∧ cv c1 = 57) ∨ (cv c0 = 50 ∧ isDig c1)) ∧ isDig c2 ∧ isDig c3) ∨
    (∃ c0 c1, cs = c0 :: c1 :: r ∧ y = [c0, c1] ∧ isDig c0 ∧ isDig c1) := by
  match cs with
  | [] => exact Option.noConfusion h
  | [c0] => exact Option.noConfusion h
  | [c0, c1] =>
    simp only [yearM] at h
    split at h
    · rename_i hc
      injection h with h'
      injection h' with hy hr
      exact Or.inr ⟨c0, c1, by rw [hr], hy.symm, hc.1, hc.2⟩
    · exact Option.noConfusion h
  | [c0, c1, c2] =>
    simp only [yearM] at h
    split at h
    · rename_i hc
      injection h with h'
      injection h' with hy hr
      exact Or.inr ⟨c0, c1, by rw [hr], hy.symm, hc.1, hc.2⟩
    · exact Option.noConfusion h
  | c0 :: c1 :: c2 :: c3 :: rest =>
    simp only [yearM] at h
    split at h
    · rename_i hc
      injection h with h'
      injection h' with hy hr
      exact Or.inl ⟨c0, c1, c2, c3, by rw [hr], hy.symm, hc.1, hc.2.1, hc.2.2⟩
    · split at h
      · rename_i hc
        injection h with h'
        injection h' with hy hr
        exact Or.inr ⟨c0, c1, by rw [hr], hy.symm, hc.1, hc.2⟩
      · exact Option.noConfusion h

/-- Inversion of the hour step: a one- or two-digit capture of digits. -/
theorem hourM_inv {cs hh r : List Char} (h : hourM cs = some (hh, r)) :
    (∃ c0 c1, cs = c0 :: c1 :: r ∧ hh = [c0, c1] ∧ isDig c0 ∧ isDig c1) ∨
    (∃ c0, cs = c0 :: r ∧ hh = [c0] ∧ isDig c0) := by
  match cs with
  | [] => exact Option.noConfusion h
  | [c0] =>
    simp only [hourM] at h
    split at h
    · rename_i hc
      injection h with h'
      injection h' with hy hr
      exact Or.inr ⟨c0, by rw [hr], hy.symm, hc⟩
    · exact Option.noConfusion h
  | c0 :: c1 :: rest =>
    simp only [hourM] at h
    split at h
    · rename_i hc
      split at h <;> rename_i hc1 <;> injection h with h' <;> injection h' with hy hr
      · refine Or.inl ⟨c0, c1, by rw [hr], hy.symm, ?_, hc1⟩
        unfold isDig cv
        rcases hc with h0 | h0 <;> rw [show c0.toNat = cv c0 from rfl, h0] <;> simp
      · refine Or.inr ⟨c0, by rw [hr], hy.symm, ?_⟩
        unfold isDig cv
        rcases hc with h0 | h0 <;> rw [show c0.toNat = cv c0 from rfl, h0] <;> simp
    · split at h
      · rename_i hc hc2
        split at h <;> rename_i hc1 <;> injection h with h' <;> injection h' with hy hr
        · refine Or.inl ⟨c0, c1, by rw [hr], hy.symm, ?_, ?_⟩
          · unfold isDig cv
            rw [show c0.toNat = cv c0 from rfl, hc2]
            simp
          · unfold isDig
            exact ⟨hc1.1, le_trans hc1.2 (by norm_num)⟩
        · refine Or.inr ⟨c0, by rw [hr], hy.symm, ?_⟩
          unfold isDig cv
          rw [show c0.toNat = cv c0 from rfl, hc2]
          simp
      · split at h
        · rename_i hc hc2 hc3
          injection h with h'
          injection h' with hy hr
          exact Or.inr ⟨c0, by rw [hr], hy.symm, hc3⟩
        · exact Option.noConfusion h

/-- Inversion of the present branch of the optional seconds group. -/
theorem secOptM_some_inv {cs : List Char} {sec r : List Char}
    (h : secOptM cs = (some sec, r)) :
    ∃ c1 c2, cs = ':' :: c1 :: c2 :: r ∧ sec = [c1, c2] ∧
      48 ≤ cv c1 ∧ cv c1 ≤ 53 ∧ isDig c2 := by
  match cs with
  | [] => injection h with h1 h2; exact Option.noConfusion h1
  | [c] => injection h with h1 h2; exact Option.noConfusion h1
  | [c, d] => injection h with h1 h2; exact Option.noConfusion h1
  | c0 :: c1 :: c2 :: rest =>
    simp only [secOptM] at h
    split at h
    · rename_i hc
      injection h with h1 h2
      injection h1 with h1'
      exact ⟨c1, c2, by rw [h2, hc.1], h1'.symm, hc.2⟩
    · injection h with h1 h2
      exact Option.noConfusion h1

/-- Inversion of grammar A: a successful match decomposes into its steps. -/
theorem matchA_inv {cs : List Char} {ts : TimeStamp} {rest : List Char}
    (h : matchA cs = some (ts, rest)) :
    ∃ y r1 r2 mo r3 r4 d r5 r6 hr r7 r8 mi r9 sec,
      yearM cs = some (y, r1) ∧ litM '-' r1 = some r2 ∧
      monthM r2 = some (mo, r3) ∧ litM '-' r3 = some r4 ∧
      dayM r4 = some (d, r5) ∧ litM '*' r5 = some r6 ∧
      hourM r6 = some (hr, r7) ∧ litM ':' r7 = some r8 ∧
      minuteM r8 = some (mi, r9) ∧ secOptM r9 = (sec, rest) ∧
      ts = ⟨⟨y⟩, ⟨mo⟩, ⟨d⟩, ⟨hr⟩, ⟨mi⟩, sec.map (fun l => (⟨l⟩ : String))⟩ := by
  unfold matchA at h
  split at h
  · exact Option.noConfusion h
  · rename_i y r1 hy
    split at h
    · exact Option.noConfusion h
    · rename_i r2 h2
      split at h
      · exact Option.noConfusion h
      · rename_i mo r3 h3
        split at h
        · exact Option.noConfusion h
        · rename_i r4 h4
          split at h
          · exact Option.noConfusion h
          · rename_i d r5 h5
            split at h
            · exact Option.noConfusion h
            · rename_i r6 h6
              split at h
              · exact Option.noConfusion h
              · rename_i hr r7 h7
                split at h
                · exact Option.noConfusion h
                · rename_i r8 h8
                  split at h
                  · exact Option.noConfusion h
                  · rename_i mi r9 h9
                    split at h
                    rename_i sec r10 h10
                    injection h with h'
                    injection h' with hts hrest
                    subst hrest
                    exact ⟨y, r1, r2, mo, r3, r4, d, r5, r6, hr, r7, r8, mi, r9, sec,
                      hy, h2, h3, h4, h5, h6, h7, h8, h9, h10, hts.symm⟩

/-- Inversion of grammar B: a successful match decomposes into its steps. -/
theorem matchB_inv {cs : List Char} {ts : TimeStamp} {rest : List Char}
    (h : matchB cs = some (ts, rest)) :
    ∃ d r1 r2 mo r3 r4 y r5 r6 hr r7 r8 mi r9 sec,
      dayM cs = some (d, r1) ∧ litM '/' r1 = some r2 ∧
      monthM r2 = some (mo, r3) ∧ litM '/' r3 = some r4 ∧
      yearM r4 = some (y, r5) ∧ litM ' ' r5 = some r6 ∧
      hourM r6 = some (hr, r7) ∧ litM ':' r7 = some r8 ∧
      minuteM r8 = some (mi, r9) ∧ secOptM r9 = (sec, rest) ∧
      ts = ⟨⟨y⟩, ⟨mo⟩, ⟨d⟩, ⟨hr⟩, ⟨mi⟩, sec.map (fun l => (⟨l⟩ : String))⟩ := by
  unfold matchB at h
  split at h
  · exact Option.noConfusion h
  · rename_i d r1 hd
    split at h
    · exact Option.noConfusion h
    · rename_i r2 h2
      split at h
      · exact Option.noConfusion h
      · rename_i mo r3 h3
        split at h
        · exact Option.noConfusion h
        · rename_i r4 h4
          split at h
          · exact Option.noConfusion h
          · rename_i y r5 h5
            split at h
            · exact Option.noConfusion h
            · rename_i r6 h6
              split at h
              · exact Option.noConfusion h
              · rename_i hr r7 h7
                split at h
                · exact Option.noConfusion h
                · rename_i r8 h8
                  split at h
                  · exact Option.noConfusion h
                  · rename_i mi r9 h9
                    split at h
                    rename_i sec r10 h10
                    injection h with h'
                    injection h' with hts hrest
                    subst hrest
                    exact ⟨d, r1, r2, mo, r3, r4, y, r5, r6, hr, r7, r8, mi, r9, sec,
                      hd, h2, h3, h4, h5, h6, h7, h8, h9, h10, hts.symm⟩

/-- Inversion of `List.findSome?`: a hit comes from some member. -/
theorem findSome?_inv {α β : Type} {f : α → Option β} {l : List α} {b : β}
    (h : l.findSome? f = some b) : ∃ a ∈ l, f a = some b := by
  induction l with
  | nil => exact Option.noConfusion h
  | cons x xs ih =>
    rw [List.findSome?_cons] at h
    revert h
    cases hx : f x with
    | some v => intro h; injection h with h'; exact ⟨x, List.mem_cons_self x xs, by rw [hx, h']⟩
    | none => intro h; obtain ⟨a, ha, hfa⟩ := ih h; exact ⟨a, List.mem_cons_of_mem x ha, hfa⟩

/-- A digit character has value at most 9. -/
theorem digitVal_le9 {c : Char} (h : isDig c) : digitVal c ≤ 9 := by
  unfold isDig at h
  unfold digitVal
  omega

/-- The tail of the repeat pattern never changes the repeat capture. -/
theorem afterTime_fst {rest : List Char} {m : Nat} {s0 : String} {n : Nat} {k : String}
    (h : afterTime rest (some (m, s0)) = some (n, k)) : n = m := by
  simp only [afterTime] at h
  split at h
  · split at h
    · injection h with h'
      injection h' with h1 h2
      exact h1.symm
    · exact Option.noConfusion h
  · split at h
    · injection h with h'
      injection h' with h1 h2
      exact h1.symm
    · exact Option.noConfusion h
  · exact Option.noConfusion h

/-- A successful suffix attempt captures a repeat of at most 9. -/
theorem tailMatch_le9 {cs : List Char} {n : Nat} {k : String}
    (h : tailMatch cs = some (n, k)) : n ≤ 9 := by
  unfold tailMatch at h
  split at h
  · split at h
    · rename_i hd
      have h9 := afterTime_fst h
      subst h9
      exact digitVal_le9 hd
    · exact Option.noConfusion h
  · exact Option.noConfusion h

/-- The repeat capture of the whole suffix pattern is a single digit value. -/
theorem repeatKindMatch_le9 {cs : List Char} {n : Nat} {k : String}
    (h : repeatKindMatch cs = some (n, k)) : n ≤ 9 := by
  unfold repeatKindMatch at h
  obtain ⟨a, _, hfa⟩ := findSome?_inv h
  exact tailMatch_le9 hfa

/-- C5 amended.  Every record `parse_log_line` produces carries the single
matched digit as its repeat count, so `0 ≤ Repeat ≤ 9`; zero is possible
(see the counterexample) and the NamedTuple default 1 is never exercised,
because a missing repeat phrase raises instead of defaulting. -/
theorem c5_amended_repeat_digit :
    ∀ (line : String) (rec : LogLine),
      parse_log_line line = Except.ok (some rec) → rec.Repeat ≤ 9 := by
  intro line rec h
  unfold parse_log_line at h
  split at h
  · injection h with h'
    exact Option.noConfusion h'
  · split at h
    · exact Except.noConfusion h
    · split at h
      · exact Except.noConfusion h
      · rename_i hrk
        injection h with h'
        injection h' with h''
        rw [← h'']
        exact repeatKindMatch_le9 hrk

/-- Witness for C5: the record of a concrete line has a digit repeat count. -/
theorem c5_witness :
    (⟨⟨2021, 5, 1, 14, 30, 0⟩, 2, some "cuddling"⟩ : LogLine).Repeat ≤ 9 :=
  c5_amended_repeat_digit "2021-05-01*14:30 2 times cuddling" _ rfl

/-- Case split of `parse_time_str`: a hit comes from grammar A or grammar B. -/
theorem parse_time_str_cases {s : String} {ts : TimeStamp} (h : parse_time_str s = some ts) :
    (∃ rest, matchA s.data = some (ts, rest)) ∨ (∃ rest, matchB s.data = some (ts, rest)) := by
  unfold parse_time_str at h
  split at h
  · rename_i ts' rest hA
    injection h with h'
    subst h'
    exact Or.inl ⟨rest, hA⟩
  · rename_i hA
    split at h
    · rename_i ts' rest hB
      injection h with h'
      subst h'
      exact Or.inr ⟨rest, hB⟩
    · exact Option.noConfusion h

/-- A month capture satisfying the month character classes has value ≤ 12. -/
theorem month_val_le12 {c0 c1 : Char}
    (hc : (cv c0 = 49 ∧ 48 ≤ cv c1 ∧ cv c1 ≤ 50) ∨ (cv c0 = 48 ∧ isDig c1)) :
    digitsVal [c0, c1] ≤ 12 := by
  have he : digitsVal [c0, c1] = 10 * (10 * 0 + digitVal c0) + digitVal c1 := rfl
  rw [he]
  unfold digitVal
  unfold isDig at hc
  omega

/-- C6 amended.  The month pattern accepts exactly the strings `00`–`12`:
every timestamp `parse_time_str` returns has a month value at most 12 (0 is
possible, see the counterexample), and each of the thirteen strings is
accepted in a full timestamp. -/
theorem c6_month_range :
    (∀ (s : String) (ts : TimeStamp), parse_time_str s = some ts → pyVal ts.Month ≤ 12) ∧
    (∀ m ∈ monthStrs,
      (parse_time_str ("2021-" ++ m ++ "-01*14:30")).map TimeStamp.Month = some m) := by
  constructor
  · intro s ts h
    rcases parse_time_str_cases h with ⟨rest, hA⟩ | ⟨rest, hB⟩
    · obtain ⟨y, r1, r2, mo, r3, r4, d, r5, r6, hr, r7, r8, mi, r9, sec,
        hy, hl1, h3, hl2, h5, hl3, h7, hl4, h9, h10, hts⟩ := matchA_inv hA
      obtain ⟨c0, c1, hshape, hm, hc⟩ := monthM_inv h3
      subst hts
      show pyVal (⟨mo⟩ : String) ≤ 12
      rw [hm]
      exact month_val_le12 hc
    · obtain ⟨d, r1, r2, mo, r3, r4, y, r5, r6, hr, r7, r8, mi, r9, sec,
        hy, hl1, h3, hl2, h5, hl3, h7, hl4, h9, h10, hts⟩ := matchB_inv hB
      obtain ⟨c0, c1, hshape, hm, hc⟩ := monthM_inv h3
      subst hts
      show pyVal (⟨mo⟩ : String) ≤ 12
      rw [hm]
      exact month_val_le12 hc
  · decide

/-- Witness for C6: a parsed December timestamp has month value ≤ 12. -/
theorem c6_witness :
    pyVal (⟨"2021", "12", "25", "10", "00", none⟩ : TimeStamp).Month ≤ 12 :=
  c6_month_range.1 "2021-12-25*10:00" ⟨"2021", "12", "25", "10", "00", none⟩ rfl

/-- A nonempty character list never builds the empty string. -/
theorem mkStr_ne_empty {c : Char} {l : List Char} : (⟨c :: l⟩ : String) ≠ "" := by
  intro h
  have h' : c :: l = ([] : List Char) := congrArg String.data h
  exact List.noConfusion h'

/-- The seconds argument passes through `datetime` construction unchanged. -/
theorem datetimeMk_ok_second {y mo d hh mi s2 : Nat} {dt : DateTime}
    (hq : datetimeMk y mo d hh mi s2 = .ok dt) : dt.second = s2 := by
  unfold datetimeMk at hq
  split at hq
  · injection hq with hq'
    rw [← hq']
  · exact Except.noConfusion hq

/-- C3 amended.  On a match with the optional seconds omitted, the returned
`TimeStamp` has its five mandatory captures populated (nonempty) while
`Second` is `None` — not 0 — and the `_datetime` conversion turns the missing
`Second` into second 0 of the resulting instant. -/
theorem c3_second_none_defaults :
    ∀ (s : String) (ts : TimeStamp), parse_time_str s = some ts →
      ts.Year ≠ "" ∧ ts.Month ≠ "" ∧ ts.Day ≠ "" ∧ ts.Hour ≠ "" ∧ ts.Minute ≠ "" ∧
      (ts.Second = none → ∀ dt, ts.dt = Except.ok dt → dt.second = 0) := by
  intro s ts h
  have hlast : ts.Second = none → ∀ dt, ts.dt = Except.ok dt → dt.second = 0 := by
    intro h2 dt hdt
    have hdt' : datetimeMk (pyOptVal (some ts.Year)) (pyOptVal (some ts.Month))
        (pyOptVal (some ts.Day)) (pyOptVal (some ts.Hour)) (pyOptVal (some ts.Minute))
        (pyOptVal ts.Second) = Except.ok dt := hdt
    rw [h2] at hdt'
    exact datetimeMk_ok_second hdt'
  rcases parse_time_str_cases h with ⟨rest, hA⟩ | ⟨rest, hB⟩
  · obtain ⟨y, r1, r2, mo, r3, r4, d, r5, r6, hr, r7, r8, mi, r9, sec,
      hy, hl1, h3, hl2, h5, hl3, h7, hl4, h9, h10, hts⟩ := matchA_inv hA
    obtain ⟨a0, a1, _, hm, _⟩ := monthM_inv h3
    obtain ⟨b0, b1, _, hd2, _⟩ := dayM_inv h5
    obtain ⟨e0, e1, _, hmi, _⟩ := minuteM_inv h9
    subst hts
    refine ⟨?_, ?_, ?_, ?_, ?_, hlast⟩
    · show (⟨y⟩ : String) ≠ ""
      rcases yearM_inv hy with ⟨c0, c1, c2, c3, _, hyy, _⟩ | ⟨c0, c1, _, hyy, _⟩ <;>
        rw [hyy] <;> exact mkStr_ne_empty
    · show (⟨mo⟩ : String) ≠ ""
      rw [hm]
      exact mkStr_ne_empty
    · show (⟨d⟩ : String) ≠ ""
      rw [hd2]
      exact mkStr_ne_empty
    · show (⟨hr⟩ : String) ≠ ""
      rcases hourM_inv h7 with ⟨c0, c1, _, hhh, _⟩ | ⟨c0, _, hhh, _⟩ <;>
        rw [hhh] <;> exact mkStr_ne_empty
    · show (⟨mi⟩ : String) ≠ ""
      rw [hmi]
      exact mkStr_ne_empty
  · obtain ⟨d, r1, r2, mo, r3, r4, y, r5, r6, hr, r7, r8, mi, r9, sec,
      hy, hl1, h3, hl2, h5, hl3, h7, hl4, h9, h10, hts⟩ := matchB_inv hB
    obtain ⟨a0, a1, _, hm, _⟩ := monthM_inv h3
    obtain ⟨b0, b1, _, hd2, _⟩ := dayM_inv hy
    obtain ⟨e0, e1, _, hmi, _⟩ := minuteM_inv h9
    subst hts
    refine ⟨?_, ?_, ?_, ?_, ?_, hlast⟩
    · show (⟨y⟩ : String) ≠ ""
      rcases yearM_inv h5 with ⟨c0, c1, c2, c3, _, hyy, _⟩ | ⟨c0, c1, _, hyy, _⟩ <;>
        rw [hyy] <;> exact mkStr_ne_empty
    · show (⟨mo⟩ : String) ≠ ""
      rw [hm]
      exact mkStr_ne_empty
    · show (⟨d⟩ : String) ≠ ""
      rw [hd2]
      exact mkStr_ne_empty
    · show (⟨hr⟩ : String) ≠ ""
      rcases hourM_inv h7 with ⟨c0, c1, _, hhh, _⟩ | ⟨c0, _, hhh, _⟩ <;>
        rw [hhh] <;> exact mkStr_ne_empty
    · show (⟨mi⟩ : String) ≠ ""
      rw [hmi]
      exact mkStr_ne_empty

/-- Witness for C3: the seconds-omitted concrete string yields an instant with
second 0 and a populated minute capture. -/
theorem c3_witness :
    (⟨2021, 5, 1, 14, 30, 0⟩ : DateTime).second = 0 ∧
    (⟨"2021", "05", "01", "14", "30", none⟩ : TimeStamp).Minute ≠ "" :=
  ⟨(c3_second_none_defaults "2021-05-01*14:30" ⟨"2021", "05", "01", "14", "30", none⟩
      rfl).2.2.2.2.2 rfl ⟨2021, 5, 1, 14, 30, 0⟩ rfl,
   (c3_second_none_defaults "2021-05-01*14:30" ⟨"2021", "05", "01", "14", "30", none⟩
      rfl).2.2.2.2.1⟩

set_option maxHeartbeats 1000000 in
/-- C4 amended.  Two-digit years are accepted by both grammars but are not
normalized into the 1900s or 2000s: the year value is the literal two-digit
integer (< 100), identical under grammar A and grammar B for the same nominal
date. -/
theorem c4_literal_two_digit_year :
    ∀ d1 d2 : Fin 10,
      ((parse_time_str (strA2 d1 d2)).map (fun ts => pyVal ts.Year) =
        some (10 * d1.val + d2.val)) ∧
      ((parse_time_str (strB2 d1 d2)).map (fun ts => pyVal ts.Year) =
        some (10 * d1.val + d2.val)) ∧
      10 * d1.val + d2.val < 100 := by
  decide

/-- Extension of a literal step under an appended suffix. -/
theorem litM_append {c : Char} {cs r t : List Char} (h : litM c cs = some r) :
    litM c (cs ++ t) = some (r ++ t) := by
  rw [litM_inv h]
  show litM c (c :: (r ++ t)) = some (r ++ t)
  simp [litM]

/-- Extension of the month step under an appended suffix. -/
theorem monthM_append {cs m r t : List Char} (h : monthM cs = some (m, r)) :
    monthM (cs ++ t) = some (m, r ++ t) := by
  obtain ⟨c0, c1, hs, hm, hc⟩ := monthM_inv h
  rw [hs]
  show monthM (c0 :: c1 :: (r ++ t)) = some (m, r ++ t)
  simp only [monthM]
  rw [if_pos hc, hm]

/-- Extension of the day step under an appended suffix. -/
theorem dayM_append {cs m r t : List Char} (h : dayM cs = some (m, r)) :
    dayM (cs ++ t) = some (m, r ++ t) := by
  obtain ⟨c0, c1, hs, hm, hc⟩ := dayM_inv h
  rw [hs]
  show dayM (c0 :: c1 :: (r ++ t)) = some (m, r ++ t)
  simp only [dayM]
  rw [if_pos hc, hm]

/-- Extension of the minute step under an appended suffix. -/
theorem minuteM_append {cs m r t : List Char} (h : minuteM cs = some (m, r)) :
    minuteM (cs ++ t) = some (m, r ++ t) := by
  obtain ⟨c0, c1, hs, hm, hc⟩ := minuteM_inv h
  rw [hs]
  show minuteM (c0 :: c1 :: (r ++ t)) = some (m, r ++ t)
  simp only [minuteM]
  rw [if_pos hc, hm]

/-- Extension of the present seconds group under an appended suffix. -/
theorem secOptM_some_append {cs sec r t : List Char} (h : secOptM cs = (some sec, r)) :
    secOptM (cs ++ t) = (some sec, r ++ t) := by
  obtain ⟨c1, c2, hs, hm, hc⟩ := secOptM_some_inv h
  rw [hs]
  show secOptM (':' :: c1 :: c2 :: (r ++ t)) = (some sec, r ++ t)
  simp only [secOptM]
  split
  · rw [hm]
  · rename_i hneg
    exact absurd ⟨trivial, hc⟩ hneg

/-- Extension of the year step when at least two characters follow it (true
inside both grammars, where a separator and a two-character field follow). -/
theorem yearM_append {cs y : List Char} {a b : Char} {r t : List Char}
    (h : yearM cs = some (y, a :: b :: r)) :
    yearM (cs ++ t) = some (y, a :: b :: (r ++ t)) := by
  match cs with
  | [] => exact Option.noConfusion h
  | [c0] => exact Option.noConfusion h
  | [c0, c1] =>
    simp only [yearM] at h
    split at h
    · injection h with h'
      injection h' with h1 h2
      exact List.noConfusion h2
    · exact Option.noConfusion h
  | [c0, c1, c2] =>
    simp only [yearM] at h
    split at h
    · injection h with h'
      injection h' with h1 h2
      injection h2 with h3 h4
      exact List.noConfusion h4
    · exact Option.noConfusion h
  | c0 :: c1 :: c2 :: c3 :: rest =>
    show yearM (c0 :: c1 :: c2 :: c3 :: (rest ++ t)) = _
    simp only [yearM] at h ⊢
    split at h
    · rename_i hc
      rw [if_pos hc]
      injection h with h'
      injection h' with h1 h2
      rw [← h1, h2]
      simp
    · split at h
      · rename_i hc4 hc2
        rw [if_neg hc4, if_pos hc2]
        injection h with h'
        injection h' with h1 h2
        injection h2 with ha h2'
        injection h2' with hb h2''
        rw [← h1, ha, hb, h2'']
      · exact Option.noConfusion h

/-- Extension of the hour step when at least one character follows it (true
inside both grammars, where a colon follows). -/
theorem hourM_append {cs hh : List Char} {a : Char} {r t : List Char}
    (h : hourM cs = some (hh, a :: r)) :
    hourM (cs ++ t) = some (hh, a :: (r ++ t)) := by
  match cs with
  | [] => exact Option.noConfusion h
  | [c0] =>
    simp only [hourM] at h
    split at h
    · injection h with h'
      injection h' with h1 h2
      exact List.noConfusion h2
    · exact Option.noConfusion h
  | c0 :: c1 :: rest =>
    show hourM (c0 :: c1 :: (rest ++ t)) = _
    simp only [hourM] at h ⊢
    split at h
    · rename_i hc
      rw [if_pos hc]
      split at h <;> rename_i hc1
      · rw [if_pos hc1]
        injection h with h'
        injection h' with h1 h2
        rw [← h1, h2]
        simp
      · rw [if_neg hc1]
        injection h with h'
        injection h' with h1 h2
        injection h2 with ha h2'
        rw [← h1, ha, h2']
    · rename_i hc
      rw [if_neg hc]
      split at h
      · rename_i hc2
        rw [if_pos hc2]
        split at h <;> rename_i hc1
        · rw [if_pos hc1]
          injection h with h'
          injection h' with h1 h2
          rw [← h1, h2]
          simp
        · rw [if_neg hc1]
          injection h with h'
          injection h' with h1 h2
          injection h2 with ha h2'
          rw [← h1, ha, h2']
      · rename_i hc2
        rw [if_neg hc2]
        split at h
        · rename_i hc3
          rw [if_pos hc3]
          injection h with h'
          injection h' with h1 h2
          injection h2 with ha h2'
          rw [← h1, ha, h2']
        · exact Option.noConfusion h

/-- A full grammar-A match with the seconds group present extends over any
appended suffix, consuming the same prefix and capturing the same fields. -/
theorem matchA_append {cs : List Char} {ts : TimeStamp} (t : List Char)
    (h : matchA cs = some (ts, [])) (hsec : ts.Second ≠ none) :
    matchA (cs ++ t) = some (ts, t) := by
  obtain ⟨y, r1, r2, mo, r3, r4, d, r5, r6, hr, r7, r8, mi, r9, sec,
    hy, hl1, h3, hl2, h5, hl3, h7, hl4, h9, h10, hts⟩ := matchA_inv h
  cases sec with
  | none =>
    refine absurd ?_ hsec
    rw [hts]
    rfl
  | some sl =>
    obtain ⟨a0, a1, hr2shape, _, _⟩ := monthM_inv h3
    have hr1shape : r1 = '-' :: r2 := litM_inv hl1
    have hr7shape : r7 = ':' :: r8 := litM_inv hl4
    have e1 : yearM (cs ++ t) = some (y, r1 ++ t) := by
      rw [hr1shape, hr2shape] at hy ⊢
      exact yearM_append hy
    have e2 : litM '-' (r1 ++ t) = some (r2 ++ t) := litM_append hl1
    have e3 : monthM (r2 ++ t) = some (mo, r3 ++ t) := monthM_append h3
    have e4 : litM '-' (r3 ++ t) = some (r4 ++ t) := litM_append hl2
    have e5 : dayM (r4 ++ t) = some (d, r5 ++ t) := dayM_append h5
    have e6 : litM '*' (r5 ++ t) = some (r6 ++ t) := litM_append hl3
    have e7 : hourM (r6 ++ t) = some (hr, r7 ++ t) := by
      rw [hr7shape] at h7 ⊢
      exact hourM_append h7
    have e8 : litM ':' (r7 ++ t) = some (r8 ++ t) := litM_append hl4
    have e9 : minuteM (r8 ++ t) = some (mi, r9 ++ t) := minuteM_append h9
    have e10 : secOptM (r9 ++ t) = (some sl, t) := secOptM_some_append h10
    simp only [matchA, e1, e2, e3, e4, e5, e6, e7, e8, e9, e10]
    rw [hts]

/-- A full grammar-B match with the seconds group present extends over any
appended suffix, consuming the same prefix and capturing the same fields. -/
theorem matchB_append {cs : List Char} {ts : TimeStamp} (t : List Char)
    (h : matchB cs = some (ts, [])) (hsec : ts.Second ≠ none) :
    matchB (cs ++ t) = some (ts, t) := by
  obtain ⟨d, r1, r2, mo, r3, r4, y, r5, r6, hr, r7, r8, mi, r9, sec,
    hd, hl1, h3, hl2, h5, hl3, h7, hl4, h9, h10, hts⟩ := matchB_inv h
  cases sec with
  | none =>
    refine absurd ?_ hsec
    rw [hts]
    rfl
  | some sl =>
    have hr5shape : r5 = ' ' :: r6 := litM_inv hl3
    have hr6shape : ∃ e0 rest6, r6 = e0 :: rest6 := by
      rcases hourM_inv h7 with ⟨c0, c1, hs6, _, _⟩ | ⟨c0, hs6, _, _⟩
      · exact ⟨c0, c1 :: r7, hs6⟩
      · exact ⟨c0, r7, hs6⟩
    obtain ⟨e0, rest6, hr6⟩ := hr6shape
    have hr7shape : r7 = ':' :: r8 := litM_inv hl4
    have f1 : dayM (cs ++ t) = some (d, r1 ++ t) := dayM_append hd
    have f2 : litM '/' (r1 ++ t) = some (r2 ++ t) := litM_append hl1
    have f3 : monthM (r2 ++ t) = some (mo, r3 ++ t) := monthM_append h3
    have f4 : litM '/' (r3 ++ t) = some (r4 ++ t) := litM_append hl2
    have f5 : yearM (r4 ++ t) = some (y, r5 ++ t) := by
      rw [hr5shape, hr6] at h5 ⊢
      exact yearM_append h5
    have f6 : litM ' ' (r5 ++ t) = some (r6 ++ t) := litM_append hl3
    have f7 : hourM (r6 ++ t) = some (hr, r7 ++ t) := by
      rw [hr7shape] at h7 ⊢
      exact hourM_append h7
    have f8 : litM ':' (r7 ++ t) = some (r8 ++ t) := litM_append hl4
    have f9 : minuteM (r8 ++ t) = some (mi, r9 ++ t) := minuteM_append h9
    have f10 : secOptM (r9 ++ t) = (some sl, t) := secOptM_some_append h10
    simp only [matchB, f1, f2, f3, f4, f5, f6, f7, f8, f9, f10]
    rw [hts]

/-- Grammar A never matches a list whose third character is `/` (the shape of
every grammar-B match), because the year reading forces `-` or a digit there. -/
theorem matchA_none_slash {c0 c1 c3 : Char} {rest : List Char} :
    matchA (c0 :: c1 :: '/' :: c3 :: rest) = none := by
  have h4 : ¬ (((cv c0 = 49 ∧ cv c1 = 57) ∨ (cv c0 = 50 ∧ isDig c1)) ∧
      isDig '/' ∧ isDig c3) := by
    intro hh
    exact absurd hh.2.1 (by decide)
  by_cases h2 : isDig c0 ∧ isDig c1
  · have hy : yearM (c0 :: c1 :: '/' :: c3 :: rest) = some ([c0, c1], '/' :: c3 :: rest) := by
      simp only [yearM]
      rw [if_neg h4, if_pos h2]
    have hl : litM '-' ('/' :: c3 :: rest) = none := by
      simp only [litM]
      rw [if_neg (by decide)]
    simp only [matchA, hy, hl]
  · have hy : yearM (c0 :: c1 :: '/' :: c3 :: rest) = none := by
      simp only [yearM]
      rw [if_neg h4, if_neg h2]
    simp only [matchA, hy]

/-- Appending strings appends their character data. -/
theorem str_data_append (s t : String) : (s ++ t).data = s.data ++ t.data := by
  cases s
  cases t
  rfl

set_option maxHeartbeats 1000000 in
/-- C10.  The timestamp regexes are anchored only at the start: when a string
is fully consumed by one of the two grammars with the seconds field present,
appending any suffix leaves the result of `parse_time_str` unchanged — which
is what lets `parse_log_line` hand the entire log line to `parse_time_str`. -/
theorem c10_prefix_stable :
    ∀ (s t : String) (ts : TimeStamp),
      (matchA s.data = some (ts, []) ∨ matchB s.data = some (ts, [])) →
      ts.Second ≠ none →
      parse_time_str (s ++ t) = parse_time_str s := by
  intro s t ts hm hsec
  have hdata : (s ++ t).data = s.data ++ t.data := str_data_append s t
  rcases hm with hA | hB
  · have hA' : matchA (s.data ++ t.data) = some (ts, t.data) := matchA_append t.data hA hsec
    unfold parse_time_str
    rw [hdata]
    simp only [hA', hA]
  · obtain ⟨d, r1, r2, mo, r3, r4, y, r5, r6, hr, r7, r8, mi, r9, sec,
      hd, hl1, h3, hl2, h5, hl3, h7, hl4, h9, h10, hts⟩ := matchB_inv hB
    obtain ⟨b0, b1, hs1, _, _⟩ := dayM_inv hd
    have hs2 : r1 = '/' :: r2 := litM_inv hl1
    obtain ⟨a0, a1, hs3, _, _⟩ := monthM_inv h3
    have hshape : s.data = b0 :: b1 :: '/' :: a0 :: a1 :: r3 := by
      rw [hs1, hs2, hs3]
    have hAnone : matchA s.data = none := by
      rw [hshape]
      exact matchA_none_slash
    have hAnone' : matchA (s.data ++ t.data) = none := by
      rw [hshape]
      show matchA (b0 :: b1 :: '/' :: a0 :: (a1 :: r3 ++ t.data)) = none
      exact matchA_none_slash
    have hB' : matchB (s.data ++ t.data) = some (ts, t.data) := matchB_append t.data hB hsec
    unfold parse_time_str
    rw [hdata]
    simp only [hAnone, hAnone', hB, hB']

/-- Witness for C10: a complete grammar-A timestamp with seconds keeps its
parse when trailing log text is appended. -/
theorem c10_witness :
    parse_time_str ("2021-05-01*14:30:05" ++ " 3 times oral") =
      parse_time_str "2021-05-01*14:30:05" :=
  c10_prefix_stable "2021-05-01*14:30:05" " 3 times oral"
    ⟨"2021", "05", "01", "14", "30", some "05"⟩ (Or.inl rfl) (by decide)
